import Mathlib

/-!
Verification of the calibration-driven angle engine of the
Digital-Dash-Gauge-Cluster repository.

The Python sources are shallowly embedded:
* `src/calibration_utils.py` (value→angle `NeedleAngleCalculator`) over `ℚ`,
  since it uses only field arithmetic and comparisons;
* `src/angle_calculator.py` (pixel-based `AngleCalculator`) over `ℝ`,
  since bearings are computed with `atan2`;
* the geometry and named-needle registry fragments of
  `backups/base_model_2026-02-09/image_gauge.py` over `ℚ` (registry, needle
  sizing) and `ℝ` (tip-radius derivation, which needs square roots).

Python's float `%` operator (sign follows the modulus) is embedded as
`pymod`.  Python lists are Lean lists; the `named_needles` dict is embedded
as a lookup function to `Option`.  Python's stable `list.sort` is
`List.mergeSort`.  Machine floats are modelled as exact rationals/reals.
-/

/-- Python's float modulo: `x % m = x - m * floor (x / m)`; for `m > 0` the
result lies in `[0, m)` whatever the sign of `x`. -/
def pymod {α : Type} [LinearOrderedField α] [FloorRing α] (x m : α) : α :=
  x - m * ((⌊x / m⌋ : ℤ) : α)

namespace CalibrationUtils

/-- `calibration_utils.CalibrationPoint`: a direct value → angle sample. -/
structure CalibrationPoint where
  value : ℚ
  angle : ℚ
deriving DecidableEq, Repr, Inhabited

/-- `NeedleAngleCalculator._validate_points`: sort the stored points by value
(Python's stable `list.sort(key=lambda p: p.value)`). -/
def validate_points (pts : List CalibrationPoint) : List CalibrationPoint :=
  pts.mergeSort (fun a b => decide (a.value ≤ b.value))

/-- `NeedleAngleCalculator.add_point`: append then re-sort. -/
def add_point (pts : List CalibrationPoint) (value angle : ℚ) :
    List CalibrationPoint :=
  validate_points (pts ++ [⟨value, angle⟩])

/-- `NeedleAngleCalculator.set_points`: rebuild the store from
(value, angle) pairs, then sort. -/
def set_points (l : List (ℚ × ℚ)) : List CalibrationPoint :=
  validate_points (l.map (fun va => ⟨va.1, va.2⟩))

/-- The body of the interpolation branch of
`NeedleAngleCalculator.value_to_angle`: single-step wraparound adjustment of
the angle span, linear interpolation, then normalization.  (Rational division
by zero is total and returns 0; the Python code never divides by zero here
when the store is sorted, since an equal-value pair is never the first
bracketing pair of a strictly interior query.) -/
def interp_pair (p1 p2 : CalibrationPoint) (value : ℚ) : ℚ :=
  let value_range := p2.value - p1.value
  let angle_range := p2.angle - p1.angle
  let adjusted := if 180 < angle_range then angle_range - 360
    else if angle_range < -180 then angle_range + 360
    else angle_range
  let fraction := (value - p1.value) / value_range
  let angle := p1.angle + adjusted * fraction
  let wrapped := pymod angle 360
  if wrapped < 0 then wrapped + 360 else wrapped

/-- The bracket-searching loop of `NeedleAngleCalculator.value_to_angle`:
scan consecutive pairs, interpolate in the first pair surrounding `value`. -/
def interp_scan : List CalibrationPoint → ℚ → Option ℚ
  | p1 :: p2 :: rest, value =>
    if p1.value ≤ value ∧ value ≤ p2.value then some (interp_pair p1 p2 value)
    else interp_scan (p2 :: rest) value
  | _, _ => none

/-- `NeedleAngleCalculator.value_to_angle`: clamp to the endpoint angles
outside the calibrated range, interpolate inside it, `0` when empty, and the
first point's angle on the (unreachable-for-sorted-stores) fallthrough. -/
def value_to_angle (pts : List CalibrationPoint) (value : ℚ) : ℚ :=
  match pts with
  | [] => 0
  | p :: rest =>
    if value ≤ p.value then p.angle
    else if ((p :: rest).getLast (List.cons_ne_nil p rest)).value ≤ value then
      ((p :: rest).getLast (List.cons_ne_nil p rest)).angle
    else
      match interp_scan (p :: rest) value with
      | some a => a
      | none => p.angle

/-- `speedometer_calibration()` preset: 0 km/h → 240°, 160 → 90°, 320 → −60°. -/
def speedometer_calibration : List CalibrationPoint :=
  set_points [(0, 240), (160, 90), (320, -60)]

/-- `tachometer_calibration()` preset: 0 RPM → 270°, 5000 → 135°, 10000 → 0°. -/
def tachometer_calibration : List CalibrationPoint :=
  set_points [(0, 270), (5000, 135), (10000, 0)]

end CalibrationUtils

namespace AngleCalculator

/-- `angle_calculator.CalibrationPoint`: pixel position with associated value. -/
structure CalibrationPoint where
  x : ℝ
  y : ℝ
  value : ℝ

/-- Python's `math.atan2(y, x)`, realized as the argument of the complex
number `x + y i`, with range `(-π, π]` and `atan2 0 0 = 0`. -/
noncomputable def atan2 (y x : ℝ) : ℝ :=
  Complex.arg ⟨x, y⟩

/-- `calculate_angle_to_point`: bearing in degrees from the gauge pivot to a
point, normalized to `[0, 360)`; screen convention (y grows downward). -/
noncomputable def calculate_angle_to_point (gauge_pivot_x gauge_pivot_y
    point_x point_y : ℝ) : ℝ :=
  let dy := point_y - gauge_pivot_y
  let dx := point_x - gauge_pivot_x
  let angle_degrees := atan2 dy dx * (180 / Real.pi)
  if angle_degrees < 0 then angle_degrees + 360 else angle_degrees

/-- `AngleCalculator.add_point`: append the new sample, then stable-sort the
store by value (`list.sort(key=lambda p: p.value)`). -/
noncomputable def add_point (pts : List CalibrationPoint) (x y value : ℝ) :
    List CalibrationPoint :=
  (pts ++ [(⟨x, y, value⟩ : CalibrationPoint)]).mergeSort
    (fun a b => decide (a.value ≤ b.value))

/-- `AngleCalculator.points_from_list`: reset the store, then `add_point`
each `{x, y, value}` record in order. -/
noncomputable def points_from_list (l : List (ℝ × ℝ × ℝ)) :
    List CalibrationPoint :=
  l.foldl (fun acc p => add_point acc p.1 p.2.1 p.2.2) []

/-- The first unwrap while-loop of `AngleCalculator.value_to_angle`:
`while angles[i] - angles[i-1] > 180: angles[i] -= 360`. -/
noncomputable def unwrap_down (prev a : ℝ) : ℝ :=
  if h : 180 < a - prev then unwrap_down prev (a - 360) else a
termination_by (⌈(a - prev - 180) / 360⌉).toNat
decreasing_by
  have h1 : (0:ℝ) < (a - prev - 180) / 360 := by
    have hx : (0:ℝ) < a - prev - 180 := by linarith
    positivity
  have hc : 0 < ⌈(a - prev - 180) / 360⌉ := Int.ceil_pos.mpr h1
  have h2 : (a - 360 - prev - 180) / 360 = (a - prev - 180) / 360 - 1 := by ring
  rw [h2, Int.ceil_sub_one]
  omega

/-- The second unwrap while-loop of `AngleCalculator.value_to_angle`:
`while angles[i] - angles[i-1] < -180: angles[i] += 360`. -/
noncomputable def unwrap_up (prev a : ℝ) : ℝ :=
  if h : a - prev < -180 then unwrap_up prev (a + 360) else a
termination_by (⌈(prev - a - 180) / 360⌉).toNat
decreasing_by
  have h1 : (0:ℝ) < (prev - a - 180) / 360 := by
    have hx : (0:ℝ) < prev - a - 180 := by linarith
    positivity
  have hc : 0 < ⌈(prev - a - 180) / 360⌉ := Int.ceil_pos.mpr h1
  have h2 : (prev - (a + 360) - 180) / 360 = (prev - a - 180) / 360 - 1 := by ring
  rw [h2, Int.ceil_sub_one]
  omega

/-- Both unwrap loops for index `i`, run in source order. -/
noncomputable def unwrap_step (prev a : ℝ) : ℝ :=
  unwrap_up prev (unwrap_down prev a)

/-- The unwrap for-loop over indices `1..len-1`: each element is adjusted
against its (already adjusted) predecessor. -/
noncomputable def unwrap_from : ℝ → List ℝ → List ℝ
  | _, [] => []
  | prev, a :: rest =>
    unwrap_step prev a :: unwrap_from (unwrap_step prev a) rest

/-- The whole unwrap pass: the first bearing is left untouched. -/
noncomputable def unwrap : List ℝ → List ℝ
  | [] => []
  | a :: rest => a :: unwrap_from a rest

/-- The list of raw bearings from the gauge pivot to each stored point. -/
noncomputable def bearings (gauge_pivot_x gauge_pivot_y : ℝ)
    (pts : List CalibrationPoint) : List ℝ :=
  pts.map (fun p => calculate_angle_to_point gauge_pivot_x gauge_pivot_y p.x p.y)

/-- The bracket-search for-loop of `AngleCalculator.value_to_angle` over
consecutive (point, unwrapped angle) pairs. -/
noncomputable def find_bracket : List (CalibrationPoint × ℝ) → ℝ → Option ℝ
  | (p1, a1) :: (p2, a2) :: rest, value =>
    if p1.value ≤ value ∧ value ≤ p2.value then
      if p2.value = p1.value then some (pymod a1 360)
      else some (pymod (a1 + (value - p1.value) / (p2.value - p1.value) * (a2 - a1)) 360)
    else find_bracket ((p2, a2) :: rest) value
  | _, _ => none

/-- `AngleCalculator.value_to_angle`: 0 when uncalibrated; otherwise unwrap
the bearings, clamp outside the calibrated value range, and linearly
interpolate the unwrapped bearings inside it, re-wrapping mod 360. -/
noncomputable def value_to_angle (gauge_pivot_x gauge_pivot_y : ℝ)
    (pts : List CalibrationPoint) (value : ℝ) : ℝ :=
  match pts with
  | [] => 0
  | p :: rest =>
    let angles := unwrap (bearings gauge_pivot_x gauge_pivot_y (p :: rest))
    if value ≤ p.value then pymod angles.headI 360
    else if ((p :: rest).getLast (List.cons_ne_nil p rest)).value ≤ value then
      pymod (angles.getLastD 0) 360
    else
      match find_bracket (List.zip (p :: rest) angles) value with
      | some r => r
      | none => pymod (angles.getLastD 0) 360

end AngleCalculator

namespace ImageGauge

/-- A custom named needle's per-instance state, the `{'value': v, 'scale': s}`
dict kept in `ImageBasedGauge.named_needles`. -/
structure NamedNeedle where
  value : ℚ
  scale : ℚ
deriving DecidableEq, Repr

/-- The `named_needles` dict, embedded as a lookup function. -/
def Registry : Type := String → Option NamedNeedle

/-- A gauge starts with no custom named needles. -/
def empty_registry : Registry := fun _ => none

/-- `ImageBasedGauge.set_named_needle_value`: create with scale 1.0 if the
needle is absent, otherwise update only the value. -/
def set_named_needle_value (reg : Registry) (needle_name : String)
    (value : ℚ) : Registry :=
  match reg needle_name with
  | none => fun n => if n = needle_name then some ⟨value, 1⟩ else reg n
  | some d => fun n => if n = needle_name then some ⟨value, d.scale⟩ else reg n

/-- `ImageBasedGauge.set_named_needle_scale`: when the needle is absent it is
created with the raw scale; when present, the scale is clamped with
`max(0.5, min(2.0, scale))`. -/
def set_named_needle_scale (reg : Registry) (needle_name : String)
    (scale : ℚ) : Registry :=
  match reg needle_name with
  | none => fun n => if n = needle_name then some ⟨0, scale⟩ else reg n
  | some d =>
    fun n => if n = needle_name then some ⟨d.value, max (1/2) (min 2 scale)⟩
      else reg n

/-- The fallback linear value→angle mapping of
`ImageBasedGauge._draw_all_named_needles` for needles without a calibration:
`angle_fraction = (value - 0) / (100 - 0) if value > 0 else 0`,
`angle = 270 - 180 * angle_fraction`. -/
def named_needle_fallback_angle (value : ℚ) : ℚ :=
  let angle_fraction := if 0 < value then (value - 0) / (100 - 0) else 0
  270 - 180 * angle_fraction

/-- The distance-accumulating loop of `load_v2_calibration` (and of
`ImageFuelGauge.load_dual_v2_calibration`): Euclidean distance from the gauge
pivot to each calibration point, appended in order. -/
noncomputable def tip_distances (gauge_pivot_x gauge_pivot_y : ℝ)
    (points : List (ℝ × ℝ)) : List ℝ :=
  points.foldl (fun acc point =>
    acc ++ [Real.sqrt ((point.1 - gauge_pivot_x) * (point.1 - gauge_pivot_x)
      + (point.2 - gauge_pivot_y) * (point.2 - gauge_pivot_y))]) []

/-- The `desired_tip_radius_px` derivation of `load_v2_calibration`: with no
calibration points the attribute is left unset (`none`); otherwise it is
`sum(distances) / len(distances)`. -/
noncomputable def desired_tip_radius (gauge_pivot_x gauge_pivot_y : ℝ)
    (points : List (ℝ × ℝ)) : Option ℝ :=
  if points = [] then none
  else
    let distances := tip_distances gauge_pivot_x gauge_pivot_y points
    if distances = [] then none
    else some (distances.sum / (distances.length : ℝ))

/-- Modelled from the spec (§4.2, §8): the spec-side Euclidean distance used
to state that the tip radius is the arithmetic mean of pivot-to-point
distances. -/
noncomputable def spec_euclidean_distance (px py qx qy : ℝ) : ℝ :=
  Real.sqrt ((qx - px) ^ 2 + (qy - py) ^ 2)

/-- Python truthiness of an optional float attribute: `None` and `0.0` are
falsy, every other float is truthy. -/
def otruthy (o : Option ℚ) : Bool :=
  match o with
  | none => false
  | some x => decide (x ≠ 0)

/-- Which sizing branch `_rotate_and_draw_needle` takes, with the computed
size: either the calibration-driven scale factor `desired_length / lengthPx`,
or the fallback height `radius * 1.5 * needle_scale` (the trailing `int(...)`
pixel truncation of the fallback height is omitted; the claims concern the
branch choice and the pre-truncation size). -/
inductive NeedleSizing where
  | by_length (scale : ℚ)
  | by_radius (height : ℚ)
deriving DecidableEq, Repr

/-- The needle-sizing decision of `_rotate_and_draw_needle`: `desired_length`
is set only when both `desired_tip_radius_px` and `gauge_display_scale` are
truthy; the scale-by-length branch additionally requires a truthy
`needle_length_px`, and otherwise the needle is sized to
`radius * 1.5 * needle_scale`. -/
def rotate_needle_sizing
    (desired_tip_radius_px gauge_display_scale needle_length_px : Option ℚ)
    (needle_scale radius : ℚ) : NeedleSizing :=
  let desired_length : Option ℚ :=
    if otruthy desired_tip_radius_px && otruthy gauge_display_scale then
      some (desired_tip_radius_px.getD 0 * gauge_display_scale.getD 0)
    else none
  if otruthy needle_length_px && otruthy desired_length then
    NeedleSizing.by_length
      ((desired_length.getD 0 * needle_scale) / needle_length_px.getD 0)
  else
    NeedleSizing.by_radius (radius * (3/2) * needle_scale)

/-- The desired-length computation of `_draw_svg_needle`: the calibrated
percentage of the live radius when the tip radius, display scale and
background dimensions are all available and the tip radius is positive,
otherwise the fixed 90% fallback. -/
def svg_desired_length
    (desired_tip_radius_px gauge_display_scale bg_width bg_height : Option ℚ)
    (needle_scale radius : ℚ) : ℚ :=
  if otruthy desired_tip_radius_px && otruthy gauge_display_scale
      && otruthy bg_width && otruthy bg_height
      && decide (0 < desired_tip_radius_px.getD 0) then
    radius * (desired_tip_radius_px.getD 0
      / (min (bg_width.getD 0) (bg_height.getD 0) / 2)) * needle_scale
  else
    radius * (9/10) * needle_scale

/-- The guarded SVG height used as the division denominator in
`_draw_svg_needle`: `svg_height = h if h > 0 else 370`. -/
def svg_height_guard (h : ℚ) : ℚ :=
  if 0 < h then h else 370

end ImageGauge

theorem pymod_nonneg {α : Type} [LinearOrderedField α] [FloorRing α]
    (x : α) {m : α} (hm : 0 < m) : 0 ≤ pymod x m := by
  have h := Int.floor_le (x / m)
  have h2 : m * ((⌊x / m⌋ : ℤ) : α) ≤ m * (x / m) :=
    mul_le_mul_of_nonneg_left h (le_of_lt hm)
  have h3 : m * (x / m) = x := by
    field_simp
  unfold pymod
  linarith

theorem pymod_lt {α : Type} [LinearOrderedField α] [FloorRing α]
    (x : α) {m : α} (hm : 0 < m) : pymod x m < m := by
  have h := Int.lt_floor_add_one (x / m)
  have h2 : m * (x / m) < m * (((⌊x / m⌋ : ℤ) : α) + 1) :=
    mul_lt_mul_of_pos_left h hm
  have h3 : m * (x / m) = x := by
    field_simp
  unfold pymod
  nlinarith

theorem pymod_add_int_mul {α : Type} [LinearOrderedField α] [FloorRing α]
    (x : α) {m : α} (hm : 0 < m) (k : ℤ) :
    pymod (x + m * (k : α)) m = pymod x m := by
  have hm' : m ≠ 0 := ne_of_gt hm
  have h1 : (x + m * (k : α)) / m = x / m + (k : α) := by
    field_simp
    ring
  unfold pymod
  rw [h1, Int.floor_add_int]
  push_cast
  ring

theorem pymod_eq_self {α : Type} [LinearOrderedField α] [FloorRing α]
    {x m : α} (hm : 0 < m) (h0 : 0 ≤ x) (h1 : x < m) : pymod x m = x := by
  have hf : ⌊x / m⌋ = 0 := by
    rw [Int.floor_eq_zero_iff]
    constructor
    · positivity
    · rw [div_lt_one hm]
      exact h1
  unfold pymod
  rw [hf]
  push_cast
  ring

namespace AngleCalculator

theorem unwrap_down_measure {prev a : ℝ} (h : 180 < a - prev) :
    (⌈(a - 360 - prev - 180) / 360⌉).toNat < (⌈(a - prev - 180) / 360⌉).toNat := by
  have h1 : (0:ℝ) < (a - prev - 180) / 360 := by
    have hx : (0:ℝ) < a - prev - 180 := by linarith
    positivity
  have hc : 0 < ⌈(a - prev - 180) / 360⌉ := Int.ceil_pos.mpr h1
  have h2 : (a - 360 - prev - 180) / 360 = (a - prev - 180) / 360 - 1 := by ring
  rw [h2, Int.ceil_sub_one]
  omega

theorem unwrap_up_measure {prev a : ℝ} (h : a - prev < -180) :
    (⌈(prev - (a + 360) - 180) / 360⌉).toNat < (⌈(prev - a - 180) / 360⌉).toNat := by
  have h1 : (0:ℝ) < (prev - a - 180) / 360 := by
    have hx : (0:ℝ) < prev - a - 180 := by linarith
    positivity
  have hc : 0 < ⌈(prev - a - 180) / 360⌉ := Int.ceil_pos.mpr h1
  have h2 : (prev - (a + 360) - 180) / 360 = (prev - a - 180) / 360 - 1 := by ring
  rw [h2, Int.ceil_sub_one]
  omega

theorem unwrap_down_eq_of_not_gt {prev a : ℝ} (h : ¬ 180 < a - prev) :
    unwrap_down prev a = a := by
  rw [unwrap_down, dif_neg h]

theorem unwrap_down_sub_le (prev a : ℝ) : unwrap_down prev a - prev ≤ 180 := by
  by_cases h : 180 < a - prev
  · rw [unwrap_down, dif_pos h]
    exact unwrap_down_sub_le prev (a - 360)
  · rw [unwrap_down, dif_neg h]
    linarith [not_lt.mp h]
termination_by (⌈(a - prev - 180) / 360⌉).toNat
decreasing_by exact unwrap_down_measure h

theorem unwrap_down_sub_gt {prev a : ℝ} (h : 180 < a - prev) :
    -180 < unwrap_down prev a - prev := by
  rw [unwrap_down, dif_pos h]
  by_cases h2 : 180 < (a - 360) - prev
  · exact unwrap_down_sub_gt h2
  · rw [unwrap_down_eq_of_not_gt h2]
    linarith
termination_by (⌈(a - prev - 180) / 360⌉).toNat
decreasing_by exact unwrap_down_measure h

theorem unwrap_down_congr (prev a : ℝ) :
    ∃ k : ℤ, unwrap_down prev a = a + 360 * (k : ℝ) := by
  by_cases h : 180 < a - prev
  · obtain ⟨k, hk⟩ := unwrap_down_congr prev (a - 360)
    refine ⟨k - 1, ?_⟩
    rw [unwrap_down, dif_pos h, hk]
    push_cast
    ring
  · refine ⟨0, ?_⟩
    rw [unwrap_down, dif_neg h]
    push_cast
    ring
termination_by (⌈(a - prev - 180) / 360⌉).toNat
decreasing_by exact unwrap_down_measure h

theorem unwrap_up_eq_of_not_lt {prev a : ℝ} (h : ¬ a - prev < -180) :
    unwrap_up prev a = a := by
  rw [unwrap_up, dif_neg h]

theorem unwrap_up_sub_ge (prev a : ℝ) : -180 ≤ unwrap_up prev a - prev := by
  by_cases h : a - prev < -180
  · rw [unwrap_up, dif_pos h]
    exact unwrap_up_sub_ge prev (a + 360)
  · rw [unwrap_up, dif_neg h]
    linarith [not_lt.mp h]
termination_by (⌈(prev - a - 180) / 360⌉).toNat
decreasing_by exact unwrap_up_measure h

theorem unwrap_up_sub_lt {prev a : ℝ} (h : a - prev < -180) :
    unwrap_up prev a - prev < 180 := by
  rw [unwrap_up, dif_pos h]
  by_cases h2 : (a + 360) - prev < -180
  · exact unwrap_up_sub_lt h2
  · rw [unwrap_up_eq_of_not_lt h2]
    linarith
termination_by (⌈(prev - a - 180) / 360⌉).toNat
decreasing_by exact unwrap_up_measure h

theorem unwrap_up_congr (prev a : ℝ) :
    ∃ k : ℤ, unwrap_up prev a = a + 360 * (k : ℝ) := by
  by_cases h : a - prev < -180
  · obtain ⟨k, hk⟩ := unwrap_up_congr prev (a + 360)
    refine ⟨k + 1, ?_⟩
    rw [unwrap_up, dif_pos h, hk]
    push_cast
    ring
  · refine ⟨0, ?_⟩
    rw [unwrap_up, dif_neg h]
    push_cast
    ring
termination_by (⌈(prev - a - 180) / 360⌉).toNat
decreasing_by exact unwrap_up_measure h

theorem unwrap_step_bounds (prev a : ℝ) :
    -180 ≤ unwrap_step prev a - prev ∧ unwrap_step prev a - prev ≤ 180 := by
  unfold unwrap_step
  have hdle : unwrap_down prev a - prev ≤ 180 := unwrap_down_sub_le prev a
  by_cases h : unwrap_down prev a - prev < -180
  · refine ⟨unwrap_up_sub_ge prev _, ?_⟩
    linarith [unwrap_up_sub_lt h]
  · rw [unwrap_up_eq_of_not_lt h]
    exact ⟨not_lt.mp h, hdle⟩

theorem unwrap_step_congr (prev a : ℝ) :
    ∃ k : ℤ, unwrap_step prev a = a + 360 * (k : ℝ) := by
  obtain ⟨k1, hk1⟩ := unwrap_down_congr prev a
  obtain ⟨k2, hk2⟩ := unwrap_up_congr prev (unwrap_down prev a)
  refine ⟨k1 + k2, ?_⟩
  unfold unwrap_step
  rw [hk2, hk1]
  push_cast
  ring

theorem unwrap_from_chain (prev : ℝ) (l : List ℝ) :
    List.Chain' (fun x y => -180 ≤ y - x ∧ y - x ≤ 180)
      (prev :: unwrap_from prev l) := by
  induction l generalizing prev with
  | nil => simp [unwrap_from]
  | cons a rest ih =>
    rw [unwrap_from, List.chain'_cons]
    exact ⟨unwrap_step_bounds prev a, ih (unwrap_step prev a)⟩

theorem unwrap_chain (l : List ℝ) :
    List.Chain' (fun x y => -180 ≤ y - x ∧ y - x ≤ 180) (unwrap l) := by
  match l with
  | [] => simp [unwrap]
  | a :: rest =>
    rw [unwrap]
    exact unwrap_from_chain a rest

theorem unwrap_from_congr (prev : ℝ) (l : List ℝ) :
    List.Forall₂ (fun x y => ∃ k : ℤ, y = x + 360 * (k : ℝ)) l
      (unwrap_from prev l) := by
  induction l generalizing prev with
  | nil => simp [unwrap_from]
  | cons a rest ih =>
    rw [unwrap_from]
    exact List.Forall₂.cons (unwrap_step_congr prev a) (ih (unwrap_step prev a))

theorem unwrap_congr (l : List ℝ) :
    List.Forall₂ (fun x y => ∃ k : ℤ, y = x + 360 * (k : ℝ)) l (unwrap l) := by
  match l with
  | [] => simp [unwrap]
  | a :: rest =>
    rw [unwrap]
    exact List.Forall₂.cons ⟨0, by push_cast; ring⟩ (unwrap_from_congr a rest)

theorem unwrap_length (l : List ℝ) : (unwrap l).length = l.length :=
  (unwrap_congr l).length_eq.symm

end AngleCalculator

namespace CalibrationUtils

theorem speedometer_calibration_eq :
    speedometer_calibration = [⟨0, 240⟩, ⟨160, 90⟩, ⟨320, -60⟩] := by
  unfold speedometer_calibration set_points validate_points
  rw [List.mergeSort_of_sorted (by decide)]
  rfl

theorem tachometer_calibration_eq :
    tachometer_calibration = [⟨0, 270⟩, ⟨5000, 135⟩, ⟨10000, 0⟩] := by
  unfold tachometer_calibration set_points validate_points
  rw [List.mergeSort_of_sorted (by decide)]
  rfl

theorem interp_pair_eq (p1 p2 : CalibrationPoint) (value : ℚ) :
    interp_pair p1 p2 value =
      (if pymod (p1.angle
          + (if 180 < p2.angle - p1.angle then p2.angle - p1.angle - 360
             else if p2.angle - p1.angle < -180 then p2.angle - p1.angle + 360
             else p2.angle - p1.angle)
          * ((value - p1.value) / (p2.value - p1.value))) 360 < 0 then
        pymod (p1.angle
          + (if 180 < p2.angle - p1.angle then p2.angle - p1.angle - 360
             else if p2.angle - p1.angle < -180 then p2.angle - p1.angle + 360
             else p2.angle - p1.angle)
          * ((value - p1.value) / (p2.value - p1.value))) 360 + 360
      else pymod (p1.angle
          + (if 180 < p2.angle - p1.angle then p2.angle - p1.angle - 360
             else if p2.angle - p1.angle < -180 then p2.angle - p1.angle + 360
             else p2.angle - p1.angle)
          * ((value - p1.value) / (p2.value - p1.value))) 360) := rfl

theorem wrap_if_range (x : ℚ) :
    0 ≤ (if pymod x 360 < 0 then pymod x 360 + 360 else pymod x 360) ∧
      (if pymod x 360 < 0 then pymod x 360 + 360 else pymod x 360) < 360 := by
  have h0 := pymod_nonneg x (show (0:ℚ) < 360 by norm_num)
  have h1 := pymod_lt x (show (0:ℚ) < 360 by norm_num)
  rw [if_neg (not_lt.mpr h0)]
  exact ⟨h0, h1⟩

theorem interp_pair_range (p1 p2 : CalibrationPoint) (value : ℚ) :
    0 ≤ interp_pair p1 p2 value ∧ interp_pair p1 p2 value < 360 := by
  rw [interp_pair_eq]
  exact wrap_if_range _

theorem interp_scan_range :
    ∀ (pts : List CalibrationPoint) (value r : ℚ),
      interp_scan pts value = some r → 0 ≤ r ∧ r < 360 := by
  intro pts
  induction pts with
  | nil => intro value r h; simp [interp_scan] at h
  | cons p1 rest ih =>
    intro value r h
    match rest, h with
    | [], h => simp [interp_scan] at h
    | p2 :: rest', h =>
      rw [interp_scan] at h
      split at h
      · obtain rfl : interp_pair p1 p2 value = r := by
          injection h
        exact interp_pair_range p1 p2 value
      · exact ih value r h

end CalibrationUtils

namespace AngleCalculator

theorem value_to_angle_nil (gauge_pivot_x gauge_pivot_y value : ℝ) :
    value_to_angle gauge_pivot_x gauge_pivot_y [] value = 0 := rfl

theorem value_to_angle_cons (gauge_pivot_x gauge_pivot_y : ℝ)
    (p : CalibrationPoint) (rest : List CalibrationPoint) (value : ℝ) :
    value_to_angle gauge_pivot_x gauge_pivot_y (p :: rest) value =
      (if value ≤ p.value then
        pymod (unwrap (bearings gauge_pivot_x gauge_pivot_y (p :: rest))).headI 360
      else if ((p :: rest).getLast (List.cons_ne_nil p rest)).value ≤ value then
        pymod ((unwrap (bearings gauge_pivot_x gauge_pivot_y (p :: rest))).getLastD 0) 360
      else
        match find_bracket
            (List.zip (p :: rest)
              (unwrap (bearings gauge_pivot_x gauge_pivot_y (p :: rest)))) value with
        | some r => r
        | none =>
          pymod ((unwrap (bearings gauge_pivot_x gauge_pivot_y (p :: rest))).getLastD 0) 360) :=
  rfl

theorem find_bracket_range :
    ∀ (pairs : List (CalibrationPoint × ℝ)) (value r : ℝ),
      find_bracket pairs value = some r → 0 ≤ r ∧ r < 360 := by
  intro pairs
  induction pairs with
  | nil => intro value r h; simp [find_bracket] at h
  | cons z1 rest ih =>
    intro value r h
    match rest, h with
    | [], h => simp [find_bracket] at h
    | z2 :: rest', h =>
      obtain ⟨p1, a1⟩ := z1
      obtain ⟨p2, a2⟩ := z2
      rw [find_bracket] at h
      split at h
      · split at h
        · obtain rfl : pymod a1 360 = r := by injection h
          exact ⟨pymod_nonneg _ (by norm_num), pymod_lt _ (by norm_num)⟩
        · obtain rfl : pymod (a1 + (value - p1.value) / (p2.value - p1.value)
              * (a2 - a1)) 360 = r := by injection h
          exact ⟨pymod_nonneg _ (by norm_num), pymod_lt _ (by norm_num)⟩
      · exact ih value r h

theorem value_to_angle_range (gauge_pivot_x gauge_pivot_y : ℝ)
    (pts : List CalibrationPoint) (value : ℝ) :
    0 ≤ value_to_angle gauge_pivot_x gauge_pivot_y pts value ∧
      value_to_angle gauge_pivot_x gauge_pivot_y pts value < 360 := by
  match pts with
  | [] =>
    rw [value_to_angle_nil]
    norm_num
  | p :: rest =>
    rw [value_to_angle_cons]
    split
    · exact ⟨pymod_nonneg _ (by norm_num), pymod_lt _ (by norm_num)⟩
    · split
      · exact ⟨pymod_nonneg _ (by norm_num), pymod_lt _ (by norm_num)⟩
      · split
        · rename_i r hr
          exact find_bracket_range _ _ _ hr
        · exact ⟨pymod_nonneg _ (by norm_num), pymod_lt _ (by norm_num)⟩

end AngleCalculator

namespace CalibrationUtils

theorem needle_value_to_angle_range (pts : List CalibrationPoint) (value : ℚ)
    (h : ∀ q ∈ pts, 0 ≤ q.angle ∧ q.angle < 360) :
    0 ≤ value_to_angle pts value ∧ value_to_angle pts value < 360 := by
  match pts with
  | [] =>
    unfold value_to_angle
    norm_num
  | p :: rest =>
    rw [value_to_angle]
    split
    · exact h p (List.mem_cons_self p rest)
    · split
      · exact h _ (List.getLast_mem (List.cons_ne_nil p rest))
      · split
        · rename_i r hr
          exact interp_scan_range _ _ _ hr
        · exact h p (List.mem_cons_self p rest)

end CalibrationUtils

/-- C1 (amended): the value-to-angle resolution stays in the 0–360 range with
one caveat.  The pixel-based `AngleCalculator.value_to_angle` returns an
angle in `[0, 360)` for every pivot, calibration list and input value; the
angle-based `NeedleAngleCalculator.value_to_angle` returns an angle in
`[0, 360)` provided every stored calibration angle lies in `[0, 360)` —
its endpoint-clamp branches return the stored endpoint angle unnormalized,
so a preset holding an out-of-range angle passes it through unchanged. -/
theorem resolve_returns_angle_in_range :
    (∀ (gauge_pivot_x gauge_pivot_y : ℝ)
        (pts : List AngleCalculator.CalibrationPoint) (value : ℝ),
      0 ≤ AngleCalculator.value_to_angle gauge_pivot_x gauge_pivot_y pts value ∧
        AngleCalculator.value_to_angle gauge_pivot_x gauge_pivot_y pts value < 360) ∧
    (∀ (pts : List CalibrationUtils.CalibrationPoint) (value : ℚ),
      (∀ q ∈ pts, 0 ≤ q.angle ∧ q.angle < 360) →
      0 ≤ CalibrationUtils.value_to_angle pts value ∧
        CalibrationUtils.value_to_angle pts value < 360) :=
  ⟨AngleCalculator.value_to_angle_range,
   CalibrationUtils.needle_value_to_angle_range⟩

/-- Witness for C1 at a concrete input: the tachometer preset stores only
angles inside `[0, 360)`, so its resolved angle at value 2500 is in range. -/
theorem resolve_returns_angle_in_range_witness :
    (∀ q ∈ CalibrationUtils.tachometer_calibration, 0 ≤ q.angle ∧ q.angle < 360) ∧
    (0 ≤ CalibrationUtils.value_to_angle CalibrationUtils.tachometer_calibration 2500 ∧
      CalibrationUtils.value_to_angle CalibrationUtils.tachometer_calibration 2500 < 360) := by
  have hq : ∀ q ∈ CalibrationUtils.tachometer_calibration,
      0 ≤ q.angle ∧ q.angle < 360 := by
    rw [CalibrationUtils.tachometer_calibration_eq]
    decide
  exact ⟨hq, resolve_returns_angle_in_range.2
    CalibrationUtils.tachometer_calibration 2500 hq⟩

/-- C1 counterexample: the stock speedometer preset stores −60° at 320 km/h,
and `NeedleAngleCalculator.value_to_angle` at value 320 returns −60, which
is not in the 0–360 range. -/
theorem resolve_range_counterexample :
    CalibrationUtils.value_to_angle CalibrationUtils.speedometer_calibration 320
      = -60 ∧
    ¬ (0 ≤ CalibrationUtils.value_to_angle
        CalibrationUtils.speedometer_calibration 320) := by
  rw [CalibrationUtils.speedometer_calibration_eq]
  decide

namespace AngleCalculator

theorem calculate_angle_to_point_eq (gx gy px py : ℝ) :
    calculate_angle_to_point gx gy px py =
      (if atan2 (py - gy) (px - gx) * (180 / Real.pi) < 0 then
        atan2 (py - gy) (px - gx) * (180 / Real.pi) + 360
      else atan2 (py - gy) (px - gx) * (180 / Real.pi)) := rfl

theorem calculate_angle_neg_x : calculate_angle_to_point 0 0 (-1) 0 = 180 := by
  rw [calculate_angle_to_point_eq]
  have h1 : atan2 (0 - 0) (-1 - 0) = Real.pi := by
    unfold atan2
    have h : ((⟨-1 - 0, 0 - 0⟩ : ℂ)) = -1 := by
      apply Complex.ext <;> norm_num
    rw [h, Complex.arg_neg_one]
  rw [h1]
  have h2 : Real.pi * (180 / Real.pi) = 180 := by
    field_simp
  rw [h2]
  norm_num

theorem calculate_angle_pos_x : calculate_angle_to_point 0 0 1 0 = 0 := by
  rw [calculate_angle_to_point_eq]
  have h1 : atan2 (0 - 0) (1 - 0) = 0 := by
    unfold atan2
    have h : ((⟨1 - 0, 0 - 0⟩ : ℂ)) = 1 := by
      apply Complex.ext <;> norm_num
    rw [h, Complex.arg_one]
  rw [h1]
  norm_num

theorem calculate_angle_pos_y : calculate_angle_to_point 0 0 0 1 = 90 := by
  rw [calculate_angle_to_point_eq]
  have h1 : atan2 (1 - 0) (0 - 0) = Real.pi / 2 := by
    unfold atan2
    have h : ((⟨0 - 0, 1 - 0⟩ : ℂ)) = Complex.I := by
      apply Complex.ext <;> norm_num
    rw [h, Complex.arg_I]
  rw [h1]
  have h2 : Real.pi / 2 * (180 / Real.pi) = 90 := by
    field_simp
    ring
  rw [h2]
  norm_num

theorem unwrap_step_eq_self {prev a : ℝ} (h1 : ¬ 180 < a - prev)
    (h2 : ¬ a - prev < -180) : unwrap_step prev a = a := by
  unfold unwrap_step
  rw [unwrap_down_eq_of_not_gt h1, unwrap_up_eq_of_not_lt h2]

theorem unwrap_down_iterate (prev a : ℝ) :
    ∃ n : ℕ, unwrap_down prev a = (fun x => x - 360)^[n] a := by
  by_cases h : 180 < a - prev
  · obtain ⟨n, hn⟩ := unwrap_down_iterate prev (a - 360)
    refine ⟨n + 1, ?_⟩
    rw [unwrap_down, dif_pos h, hn, Function.iterate_succ_apply]
  · refine ⟨0, ?_⟩
    rw [unwrap_down, dif_neg h]
    rfl
termination_by (⌈(a - prev - 180) / 360⌉).toNat
decreasing_by exact unwrap_down_measure h

theorem unwrap_up_iterate (prev a : ℝ) :
    ∃ n : ℕ, unwrap_up prev a = (fun x => x + 360)^[n] a := by
  by_cases h : a - prev < -180
  · obtain ⟨n, hn⟩ := unwrap_up_iterate prev (a + 360)
    refine ⟨n + 1, ?_⟩
    rw [unwrap_up, dif_pos h, hn, Function.iterate_succ_apply]
  · refine ⟨0, ?_⟩
    rw [unwrap_up, dif_neg h]
    rfl
termination_by (⌈(prev - a - 180) / 360⌉).toNat
decreasing_by exact unwrap_up_measure h

theorem unwrap_down_not_gt (prev a : ℝ) :
    ¬ 180 < unwrap_down prev a - prev :=
  not_lt.mpr (unwrap_down_sub_le prev a)

theorem unwrap_up_not_lt (prev a : ℝ) :
    ¬ unwrap_up prev a - prev < -180 :=
  not_lt.mpr (unwrap_up_sub_ge prev a)

end AngleCalculator

/-- C2 (amended): after the unwrap step in `AngleCalculator.value_to_angle`,
every pair of consecutive unwrapped bearings differs by a value in the
closed interval `[-180, 180]`; the difference −180 itself can occur (when a
raw difference is exactly −180 neither loop fires), so the half-open
interval `(-180, 180]` of the original claim is weakened at its left end,
while the consequence |difference| ≤ 180 holds as stated. -/
theorem unwrap_adjacent_difference_bounded
    (gauge_pivot_x gauge_pivot_y : ℝ)
    (pts : List AngleCalculator.CalibrationPoint) :
    List.Chain' (fun x y => -180 ≤ y - x ∧ y - x ≤ 180)
      (AngleCalculator.unwrap
        (AngleCalculator.bearings gauge_pivot_x gauge_pivot_y pts)) :=
  AngleCalculator.unwrap_chain _

/-- C2 counterexample: with pivot (0,0) and calibration pixels (−1,0) then
(1,0), the raw bearings are 180° and 0°; the unwrap loops leave them
untouched, and the adjacent difference 0 − 180 = −180 is not in the
half-open interval `(-180, 180]` stated by the claim. -/
theorem unwrap_difference_interval_counterexample :
    AngleCalculator.unwrap (AngleCalculator.bearings 0 0
      [⟨-1, 0, 0⟩, ⟨1, 0, 1⟩]) = [180, 0] ∧
    ¬ (-180 < (0:ℝ) - 180) := by
  constructor
  · have hb : AngleCalculator.bearings 0 0 [⟨-1, 0, 0⟩, ⟨1, 0, 1⟩]
        = [180, 0] := by
      unfold AngleCalculator.bearings
      rw [List.map_cons, List.map_cons, List.map_nil]
      rw [show AngleCalculator.calculate_angle_to_point 0 0
            (AngleCalculator.CalibrationPoint.mk (-1) 0 0).x
            (AngleCalculator.CalibrationPoint.mk (-1) 0 0).y = 180 from
          AngleCalculator.calculate_angle_neg_x]
      rw [show AngleCalculator.calculate_angle_to_point 0 0
            (AngleCalculator.CalibrationPoint.mk 1 0 1).x
            (AngleCalculator.CalibrationPoint.mk 1 0 1).y = 0 from
          AngleCalculator.calculate_angle_pos_x]
    rw [hb, AngleCalculator.unwrap, AngleCalculator.unwrap_from,
      AngleCalculator.unwrap_from]
    rw [AngleCalculator.unwrap_step_eq_self (by norm_num) (by norm_num)]
  · norm_num

/-- C9: the unwrap while-loops of `AngleCalculator.value_to_angle` always
terminate: each loop's result is reached after finitely many body
iterations (subtracting/adding 360), at which point the loop guard is
false.  Together with the structural recursion of every other embedded
operation this makes `value_to_angle` total on all finite inputs. -/
theorem unwrap_loops_terminate (prev a : ℝ) :
    (∃ n : ℕ, AngleCalculator.unwrap_down prev a = (fun x => x - 360)^[n] a ∧
      ¬ 180 < AngleCalculator.unwrap_down prev a - prev) ∧
    (∃ n : ℕ, AngleCalculator.unwrap_up prev a = (fun x => x + 360)^[n] a ∧
      ¬ AngleCalculator.unwrap_up prev a - prev < -180) := by
  obtain ⟨n1, h1⟩ := AngleCalculator.unwrap_down_iterate prev a
  obtain ⟨n2, h2⟩ := AngleCalculator.unwrap_up_iterate prev a
  exact ⟨⟨n1, h1, AngleCalculator.unwrap_down_not_gt prev a⟩,
    ⟨n2, h2, AngleCalculator.unwrap_up_not_lt prev a⟩⟩

namespace ImageGauge

theorem named_needle_fallback_angle_eq (value : ℚ) :
    named_needle_fallback_angle value =
      270 - 180 * (if 0 < value then (value - 0) / (100 - 0) else 0) := rfl

theorem foldl_append_eq_map {α β : Type} (f : α → β) :
    ∀ (l : List α) (acc : List β),
      l.foldl (fun acc2 x => acc2 ++ [f x]) acc = acc ++ l.map f := by
  intro l
  induction l with
  | nil => intro acc; simp
  | cons x xs ih =>
    intro acc
    rw [List.foldl_cons, ih, List.map_cons]
    simp

theorem tip_distances_eq_map (gauge_pivot_x gauge_pivot_y : ℝ)
    (points : List (ℝ × ℝ)) :
    tip_distances gauge_pivot_x gauge_pivot_y points =
      points.map (fun point =>
        Real.sqrt ((point.1 - gauge_pivot_x) * (point.1 - gauge_pivot_x)
          + (point.2 - gauge_pivot_y) * (point.2 - gauge_pivot_y))) := by
  unfold tip_distances
  rw [foldl_append_eq_map]
  simp

theorem desired_tip_radius_eq (gauge_pivot_x gauge_pivot_y : ℝ)
    (points : List (ℝ × ℝ)) :
    desired_tip_radius gauge_pivot_x gauge_pivot_y points =
      (if points = [] then none
       else if tip_distances gauge_pivot_x gauge_pivot_y points = [] then none
       else some ((tip_distances gauge_pivot_x gauge_pivot_y points).sum
         / ((tip_distances gauge_pivot_x gauge_pivot_y points).length : ℝ))) := rfl

theorem rotate_needle_sizing_eq
    (desired_tip_radius_px gauge_display_scale needle_length_px : Option ℚ)
    (needle_scale radius : ℚ) :
    rotate_needle_sizing desired_tip_radius_px gauge_display_scale
        needle_length_px needle_scale radius =
      (if otruthy needle_length_px &&
          otruthy (if otruthy desired_tip_radius_px && otruthy gauge_display_scale then
            some (desired_tip_radius_px.getD 0 * gauge_display_scale.getD 0)
          else none) then
        NeedleSizing.by_length
          (((if otruthy desired_tip_radius_px && otruthy gauge_display_scale then
              some (desired_tip_radius_px.getD 0 * gauge_display_scale.getD 0)
            else none).getD 0 * needle_scale) / needle_length_px.getD 0)
      else NeedleSizing.by_radius (radius * (3/2) * needle_scale)) := rfl

end ImageGauge

/-- C5: the fallback mapping of `_draw_all_named_needles` for needles
without a calibration set realizes `angle = 270 − 180·(value/100)` over the
assumed domain `[0, 100]`; in particular value 0 maps to 270°, value 50 to
180° and value 100 to 90°. -/
theorem uncalibrated_fallback_mapping :
    (∀ v : ℚ, 0 ≤ v → v ≤ 100 →
      ImageGauge.named_needle_fallback_angle v = 270 - 180 * (v / 100)) ∧
    ImageGauge.named_needle_fallback_angle 0 = 270 ∧
    ImageGauge.named_needle_fallback_angle 50 = 180 ∧
    ImageGauge.named_needle_fallback_angle 100 = 90 := by
  refine ⟨?_, by rw [ImageGauge.named_needle_fallback_angle_eq]; norm_num,
    by rw [ImageGauge.named_needle_fallback_angle_eq]; norm_num,
    by rw [ImageGauge.named_needle_fallback_angle_eq]; norm_num⟩
  intro v h0 h100
  rw [ImageGauge.named_needle_fallback_angle_eq]
  rcases lt_or_eq_of_le h0 with hv | hv
  · rw [if_pos hv]
    norm_num
  · rw [if_neg (by rw [← hv]; exact lt_irrefl 0)]
    rw [← hv]
    norm_num

/-- Witness for C5 at the concrete in-domain value 25. -/
theorem uncalibrated_fallback_mapping_witness :
    (0:ℚ) ≤ 25 ∧ (25:ℚ) ≤ 100 ∧
    ImageGauge.named_needle_fallback_angle 25 = 270 - 180 * (25 / 100) :=
  ⟨by norm_num, by norm_num,
    uncalibrated_fallback_mapping.1 25 (by norm_num) (by norm_num)⟩

/-- C6: for every loaded calibration with at least one point, the derived
`desired_tip_radius_px` equals the arithmetic mean of the Euclidean
distances from the gauge pivot to the calibration points. -/
theorem tip_radius_is_mean_distance (gauge_pivot_x gauge_pivot_y : ℝ)
    (points : List (ℝ × ℝ)) (h : points ≠ []) :
    ImageGauge.desired_tip_radius gauge_pivot_x gauge_pivot_y points =
      some ((points.map (fun point =>
          ImageGauge.spec_euclidean_distance gauge_pivot_x gauge_pivot_y
            point.1 point.2)).sum / (points.length : ℝ)) := by
  rw [ImageGauge.desired_tip_radius_eq, if_neg h,
    ImageGauge.tip_distances_eq_map]
  have hfun : (fun point : ℝ × ℝ =>
      Real.sqrt ((point.1 - gauge_pivot_x) * (point.1 - gauge_pivot_x)
        + (point.2 - gauge_pivot_y) * (point.2 - gauge_pivot_y))) =
      (fun point : ℝ × ℝ =>
        ImageGauge.spec_euclidean_distance gauge_pivot_x gauge_pivot_y
          point.1 point.2) := by
    funext point
    unfold ImageGauge.spec_euclidean_distance
    congr 1
    ring
  rw [hfun, if_neg (by simpa using h), List.length_map]

/-- Witness for C6: pivot (0,0) with the single calibration point (3,4). -/
theorem tip_radius_is_mean_distance_witness :
    ([((3:ℝ), (4:ℝ))] ≠ []) ∧
    ImageGauge.desired_tip_radius 0 0 [(3, 4)] =
      some ((([((3:ℝ), (4:ℝ))]).map (fun point =>
        ImageGauge.spec_euclidean_distance 0 0 point.1 point.2)).sum
        / (([((3:ℝ), (4:ℝ))]).length : ℝ)) :=
  ⟨by simp, tip_radius_is_mean_distance 0 0 [(3, 4)] (by simp)⟩

/-- C7: computing the needle render scale never divides by zero: when the
calibrated needle length is absent or zero, `_rotate_and_draw_needle` skips
the scale-by-length branch and sizes the needle as the fixed proportion
`radius * 1.5 * needle_scale` of the live gauge radius; and the SVG path's
division denominator `svg_height` is always positive thanks to its
`h if h > 0 else 370` guard. -/
theorem needle_render_scale_no_div_by_zero :
    (∀ (desired_tip_radius_px gauge_display_scale needle_length_px : Option ℚ)
        (needle_scale radius : ℚ),
      needle_length_px = none ∨ needle_length_px = some 0 →
      ImageGauge.rotate_needle_sizing desired_tip_radius_px
          gauge_display_scale needle_length_px needle_scale radius
        = ImageGauge.NeedleSizing.by_radius (radius * (3/2) * needle_scale)) ∧
    (∀ h : ℚ, 0 < ImageGauge.svg_height_guard h) := by
  constructor
  · intro tip disp len_ ns radius hlen
    rw [ImageGauge.rotate_needle_sizing_eq]
    rcases hlen with rfl | rfl
    · simp [ImageGauge.otruthy]
    · simp [ImageGauge.otruthy]
  · intro h
    unfold ImageGauge.svg_height_guard
    split
    · assumption
    · norm_num

/-- Witness for C7: a zero-length needle with an otherwise complete
calibration is sized by the radius fallback. -/
theorem needle_render_scale_no_div_by_zero_witness :
    ((some (0:ℚ) = none ∨ some (0:ℚ) = some 0) ∧
      ImageGauge.rotate_needle_sizing (some 200) (some 1) (some 0) 2 100
        = ImageGauge.NeedleSizing.by_radius (100 * (3/2) * 2)) ∧
    0 < ImageGauge.svg_height_guard 0 :=
  ⟨⟨Or.inr rfl,
    needle_render_scale_no_div_by_zero.1 (some 200) (some 1) (some 0) 2 100
      (Or.inr rfl)⟩,
   needle_render_scale_no_div_by_zero.2 0⟩

/-- C8 (amended): `set_named_needle_scale` clamps the stored scale into
[0.5, 2.0] only when the needle already exists; the call that first creates
the needle stores the raw scale argument unclamped (the primary
main/fuel/water needles' wider editor range [0.5, 4.0] lives in the
`gauge_preview` spin boxes, outside this registry). -/
theorem set_scale_clamped_for_existing (reg : ImageGauge.Registry)
    (needle_name : String) (scale : ℚ) (d : ImageGauge.NamedNeedle)
    (h : reg needle_name = some d) :
    ImageGauge.set_named_needle_scale reg needle_name scale needle_name
      = some ⟨d.value, max (1/2) (min 2 scale)⟩ ∧
    1/2 ≤ max (1/2) (min 2 scale) ∧ max (1/2) (min 2 scale) ≤ 2 := by
  refine ⟨?_, le_max_left _ _, max_le (by norm_num) (min_le_left _ _)⟩
  unfold ImageGauge.set_named_needle_scale
  rw [h]
  simp

/-- Witness for C8: an existing needle (created by `set_named_needle_value`)
has its scale request 10 clamped down to 2. -/
theorem set_scale_clamped_for_existing_witness :
    (ImageGauge.set_named_needle_value ImageGauge.empty_registry "boost" 7)
        "boost" = some ⟨7, 1⟩ ∧
    ImageGauge.set_named_needle_scale
        (ImageGauge.set_named_needle_value ImageGauge.empty_registry "boost" 7)
        "boost" 10 "boost"
      = some ⟨(7:ℚ), max (1/2) (min 2 10)⟩ ∧
    (1:ℚ)/2 ≤ max (1/2) (min 2 10) ∧ max (1/2) (min 2 (10:ℚ)) ≤ 2 := by
  have h : (ImageGauge.set_named_needle_value ImageGauge.empty_registry
      "boost" 7) "boost" = some ⟨7, 1⟩ := rfl
  have h2 := set_scale_clamped_for_existing
    (ImageGauge.set_named_needle_value ImageGauge.empty_registry "boost" 7)
    "boost" 10 ⟨7, 1⟩ h
  exact ⟨h, h2.1, h2.2⟩

/-- C8 counterexample: calling `set_named_needle_scale` on a needle that
does not yet exist stores the raw scale 10, outside the claimed clamp range
[0.5, 2.0]. -/
theorem set_scale_creation_unclamped_counterexample :
    ImageGauge.set_named_needle_scale ImageGauge.empty_registry "boost" 10
        "boost" = some ⟨0, 10⟩ ∧
    ¬ ((10:ℚ) ≤ 2) := by
  constructor
  · rfl
  · norm_num

namespace AngleCalculator

theorem unwrap_headI (b : ℝ) (bs : List ℝ) : (unwrap (b :: bs)).headI = b := by
  rw [unwrap]
  rfl

theorem bearings_cons (gauge_pivot_x gauge_pivot_y : ℝ) (p : CalibrationPoint)
    (rest : List CalibrationPoint) :
    bearings gauge_pivot_x gauge_pivot_y (p :: rest) =
      calculate_angle_to_point gauge_pivot_x gauge_pivot_y p.x p.y ::
        bearings gauge_pivot_x gauge_pivot_y rest := rfl

theorem getLastD_cons_default {α : Type} (x : α) (xs : List α) (d d' : α) :
    (x :: xs).getLastD d = (x :: xs).getLastD d' := by
  rw [List.getLastD_cons, List.getLastD_cons]

theorem unwrap_from_getLastD (prev a : ℝ) (rest : List ℝ) (d d' : ℝ) :
    ∃ k : ℤ, (unwrap_from prev (a :: rest)).getLastD d'
      = (a :: rest).getLastD d + 360 * (k : ℝ) := by
  induction rest generalizing prev a d d' with
  | nil =>
    obtain ⟨k, hk⟩ := unwrap_step_congr prev a
    refine ⟨k, ?_⟩
    rw [unwrap_from, unwrap_from]
    simpa using hk
  | cons r rs ih =>
    obtain ⟨k, hk⟩ := ih (unwrap_step prev a) r a (unwrap_step prev a)
    refine ⟨k, ?_⟩
    rw [unwrap_from, List.getLastD_cons, List.getLastD_cons]
    exact hk

theorem unwrap_getLastD (a : ℝ) (rest : List ℝ) :
    ∃ k : ℤ, (unwrap (a :: rest)).getLastD 0
      = (a :: rest).getLastD 0 + 360 * (k : ℝ) := by
  match rest with
  | [] =>
    refine ⟨0, ?_⟩
    rw [unwrap, unwrap_from]
    push_cast
    ring
  | r :: rs =>
    rw [unwrap, List.getLastD_cons, List.getLastD_cons]
    exact unwrap_from_getLastD a r rs a a

theorem bearings_getLastD (gauge_pivot_x gauge_pivot_y : ℝ)
    (p : CalibrationPoint) (rest : List CalibrationPoint) :
    (bearings gauge_pivot_x gauge_pivot_y (p :: rest)).getLastD 0 =
      calculate_angle_to_point gauge_pivot_x gauge_pivot_y
        ((p :: rest).getLast (List.cons_ne_nil p rest)).x
        ((p :: rest).getLast (List.cons_ne_nil p rest)).y := by
  unfold bearings
  rw [List.getLastD_eq_getLast?, List.getLast?_map,
    List.getLast?_eq_getLast (p :: rest) (List.cons_ne_nil p rest)]
  rfl

theorem clamp_low (gauge_pivot_x gauge_pivot_y : ℝ) (p : CalibrationPoint)
    (rest : List CalibrationPoint) (value : ℝ) (h : value ≤ p.value) :
    value_to_angle gauge_pivot_x gauge_pivot_y (p :: rest) value
      = pymod (calculate_angle_to_point gauge_pivot_x gauge_pivot_y p.x p.y)
          360 := by
  rw [value_to_angle_cons, if_pos h, bearings_cons, unwrap_headI]

theorem clamp_high (gauge_pivot_x gauge_pivot_y : ℝ) (p : CalibrationPoint)
    (rest : List CalibrationPoint) (value : ℝ) (h1 : ¬ value ≤ p.value)
    (h2 : ((p :: rest).getLast (List.cons_ne_nil p rest)).value ≤ value) :
    value_to_angle gauge_pivot_x gauge_pivot_y (p :: rest) value
      = pymod (calculate_angle_to_point gauge_pivot_x gauge_pivot_y
          ((p :: rest).getLast (List.cons_ne_nil p rest)).x
          ((p :: rest).getLast (List.cons_ne_nil p rest)).y) 360 := by
  rw [value_to_angle_cons, if_neg h1, if_pos h2]
  rw [bearings_cons]
  obtain ⟨k, hk⟩ :=
    unwrap_getLastD (calculate_angle_to_point gauge_pivot_x gauge_pivot_y p.x p.y)
      (bearings gauge_pivot_x gauge_pivot_y rest)
  rw [hk]
  rw [pymod_add_int_mul _ (by norm_num) k]
  rw [← bearings_cons, bearings_getLastD]

theorem clamp_single (gauge_pivot_x gauge_pivot_y : ℝ) (p : CalibrationPoint)
    (value : ℝ) :
    value_to_angle gauge_pivot_x gauge_pivot_y [p] value
      = pymod (calculate_angle_to_point gauge_pivot_x gauge_pivot_y p.x p.y)
          360 := by
  by_cases h : value ≤ p.value
  · exact clamp_low gauge_pivot_x gauge_pivot_y p [] value h
  · have h2 : (([p] : List CalibrationPoint).getLast
        (List.cons_ne_nil p [])).value ≤ value := by
      simpa using le_of_lt (not_le.mp h)
    rw [clamp_high gauge_pivot_x gauge_pivot_y p [] value h h2]
    rfl

end AngleCalculator

namespace CalibrationUtils

theorem clamp_low_q (p : CalibrationPoint) (rest : List CalibrationPoint)
    (value : ℚ) (h : value ≤ p.value) :
    value_to_angle (p :: rest) value = p.angle := by
  rw [value_to_angle, if_pos h]

theorem clamp_high_q (p : CalibrationPoint) (rest : List CalibrationPoint)
    (value : ℚ) (h1 : ¬ value ≤ p.value)
    (h2 : ((p :: rest).getLast (List.cons_ne_nil p rest)).value ≤ value) :
    value_to_angle (p :: rest) value
      = ((p :: rest).getLast (List.cons_ne_nil p rest)).angle := by
  rw [value_to_angle, if_neg h1, if_pos h2]

end CalibrationUtils

/-- C4 (amended): out-of-range values are always clamped, never an error.
In the pixel-based `AngleCalculator`, a value at or below the smallest
calibration value resolves to the first point's bearing mod 360, a value
strictly above the smallest and at or above the largest resolves to the last
point's bearing mod 360 (the low clamp wins when both apply), and with
exactly one point every value maps to that point's bearing mod 360.  In the
angle-based `NeedleAngleCalculator`, the same clamp branches return the
stored endpoint angle unchanged — without the mod-360 normalization the
original claim asserts. -/
theorem out_of_range_clamps :
    (∀ (gauge_pivot_x gauge_pivot_y : ℝ) (p : AngleCalculator.CalibrationPoint)
        (rest : List AngleCalculator.CalibrationPoint) (value : ℝ),
      value ≤ p.value →
      AngleCalculator.value_to_angle gauge_pivot_x gauge_pivot_y (p :: rest) value
        = pymod (AngleCalculator.calculate_angle_to_point gauge_pivot_x
            gauge_pivot_y p.x p.y) 360) ∧
    (∀ (gauge_pivot_x gauge_pivot_y : ℝ) (p : AngleCalculator.CalibrationPoint)
        (rest : List AngleCalculator.CalibrationPoint) (value : ℝ),
      ¬ value ≤ p.value →
      ((p :: rest).getLast (List.cons_ne_nil p rest)).value ≤ value →
      AngleCalculator.value_to_angle gauge_pivot_x gauge_pivot_y (p :: rest) value
        = pymod (AngleCalculator.calculate_angle_to_point gauge_pivot_x
            gauge_pivot_y
            ((p :: rest).getLast (List.cons_ne_nil p rest)).x
            ((p :: rest).getLast (List.cons_ne_nil p rest)).y) 360) ∧
    (∀ (gauge_pivot_x gauge_pivot_y : ℝ) (p : AngleCalculator.CalibrationPoint)
        (value : ℝ),
      AngleCalculator.value_to_angle gauge_pivot_x gauge_pivot_y [p] value
        = pymod (AngleCalculator.calculate_angle_to_point gauge_pivot_x
            gauge_pivot_y p.x p.y) 360) ∧
    (∀ (p : CalibrationUtils.CalibrationPoint)
        (rest : List CalibrationUtils.CalibrationPoint) (value : ℚ),
      value ≤ p.value →
      CalibrationUtils.value_to_angle (p :: rest) value = p.angle) ∧
    (∀ (p : CalibrationUtils.CalibrationPoint)
        (rest : List CalibrationUtils.CalibrationPoint) (value : ℚ),
      ¬ value ≤ p.value →
      ((p :: rest).getLast (List.cons_ne_nil p rest)).value ≤ value →
      CalibrationUtils.value_to_angle (p :: rest) value
        = ((p :: rest).getLast (List.cons_ne_nil p rest)).angle) :=
  ⟨AngleCalculator.clamp_low, AngleCalculator.clamp_high,
   AngleCalculator.clamp_single, CalibrationUtils.clamp_low_q,
   CalibrationUtils.clamp_high_q⟩

/-- Witness for C4: a single-point pixel calibration at (1,0) clamps the
below-range value −1 to the point's bearing mod 360, and the speedometer
preset clamps the below-range value −5 to its first stored angle 240. -/
theorem out_of_range_clamps_witness :
    ((-1:ℝ) ≤ (AngleCalculator.CalibrationPoint.mk 1 0 0).value ∧
      AngleCalculator.value_to_angle 0 0 [⟨1, 0, 0⟩] (-1)
        = pymod (AngleCalculator.calculate_angle_to_point 0 0
            (AngleCalculator.CalibrationPoint.mk 1 0 0).x
            (AngleCalculator.CalibrationPoint.mk 1 0 0).y) 360) ∧
    ((-5:ℚ) ≤ (CalibrationUtils.CalibrationPoint.mk 0 240).value ∧
      CalibrationUtils.value_to_angle [⟨0, 240⟩, ⟨160, 90⟩, ⟨320, -60⟩] (-5)
        = (CalibrationUtils.CalibrationPoint.mk 0 240).angle) :=
  ⟨⟨by norm_num,
    out_of_range_clamps.1 0 0 ⟨1, 0, 0⟩ [] (-1) (by norm_num)⟩,
   ⟨by norm_num,
    out_of_range_clamps.2.2.2.1 ⟨0, 240⟩ [⟨160, 90⟩, ⟨320, -60⟩] (-5)
      (by norm_num)⟩⟩

/-- C4 counterexample: the claim's mod-360 phrasing fails on the angle-based
calculator: for the speedometer preset, the above-range value 400 is clamped
to the stored endpoint angle −60, whereas the claimed "unwrapped bearing mod
360" would be 300. -/
theorem out_of_range_clamps_counterexample :
    CalibrationUtils.value_to_angle CalibrationUtils.speedometer_calibration 400
      = -60 ∧
    pymod (-60 : ℚ) 360 = 300 ∧ ((-60 : ℚ) ≠ 300) := by
  refine ⟨?_, ?_, by norm_num⟩
  · rw [CalibrationUtils.speedometer_calibration_eq]
    decide
  · have hf : ⌊((-60 : ℚ) / 360)⌋ = -1 := by
      rw [Int.floor_eq_iff]
      norm_num
    unfold pymod
    rw [hf]
    norm_num

namespace CalibrationUtils

theorem validate_points_sorted (pts : List CalibrationPoint) :
    List.Sorted (fun a b : CalibrationPoint => a.value ≤ b.value)
      (validate_points pts) := by
  unfold validate_points
  have h : (pts.mergeSort
      (fun a b : CalibrationPoint => decide (a.value ≤ b.value))).Pairwise
      (fun a b : CalibrationPoint => decide (a.value ≤ b.value) = true) :=
    List.sorted_mergeSort
      (fun a b c h1 h2 => by
        simp only [decide_eq_true_eq] at h1 h2 ⊢
        exact le_trans h1 h2)
      (fun a b => by
        simp only [Bool.or_eq_true, decide_eq_true_eq]
        exact le_total a.value b.value)
      pts
  exact h.imp (fun hab => of_decide_eq_true hab)

theorem needle_add_point_sorted (pts : List CalibrationPoint) (value angle : ℚ) :
    List.Sorted (fun a b : CalibrationPoint => a.value ≤ b.value)
      (add_point pts value angle) :=
  validate_points_sorted _

theorem set_points_sorted (l : List (ℚ × ℚ)) :
    List.Sorted (fun a b : CalibrationPoint => a.value ≤ b.value)
      (set_points l) :=
  validate_points_sorted _

end CalibrationUtils

namespace AngleCalculator

theorem add_point_sorted (pts : List CalibrationPoint) (x y value : ℝ) :
    List.Sorted (fun a b : CalibrationPoint => a.value ≤ b.value)
      (add_point pts x y value) := by
  unfold add_point
  have h : ((pts ++ [(⟨x, y, value⟩ : CalibrationPoint)]).mergeSort
      (fun a b : CalibrationPoint => decide (a.value ≤ b.value))).Pairwise
      (fun a b : CalibrationPoint => decide (a.value ≤ b.value) = true) :=
    List.sorted_mergeSort
      (fun a b c h1 h2 => by
        simp only [decide_eq_true_eq] at h1 h2 ⊢
        exact le_trans h1 h2)
      (fun a b => by
        simp only [Bool.or_eq_true, decide_eq_true_eq]
        exact le_total a.value b.value)
      (pts ++ [(⟨x, y, value⟩ : CalibrationPoint)])
  exact h.imp (fun hab => of_decide_eq_true hab)

theorem points_from_list_sorted_aux (l : List (ℝ × ℝ × ℝ)) :
    ∀ acc : List CalibrationPoint,
      List.Sorted (fun a b : CalibrationPoint => a.value ≤ b.value) acc →
      List.Sorted (fun a b : CalibrationPoint => a.value ≤ b.value)
        (l.foldl (fun acc2 p => add_point acc2 p.1 p.2.1 p.2.2) acc) := by
  induction l with
  | nil => intro acc hacc; simpa using hacc
  | cons p rest ih =>
    intro acc hacc
    rw [List.foldl_cons]
    exact ih (add_point acc p.1 p.2.1 p.2.2) (add_point_sorted acc p.1 p.2.1 p.2.2)

theorem points_from_list_sorted (l : List (ℝ × ℝ × ℝ)) :
    List.Sorted (fun a b : CalibrationPoint => a.value ≤ b.value)
      (points_from_list l) :=
  points_from_list_sorted_aux l [] (List.sorted_nil)

end AngleCalculator

/-- C10: every mutation of a calibration point store leaves it sorted
ascending by value: `AngleCalculator.add_point` and
`AngleCalculator.points_from_list`, and `NeedleAngleCalculator`'s
`_validate_points` (run by `__init__`), `add_point` and `set_points`, all
produce value-sorted lists, so `value_to_angle` always operates on a
value-sorted store. -/
theorem calibration_store_always_sorted :
    (∀ (pts : List AngleCalculator.CalibrationPoint) (x y value : ℝ),
      List.Sorted (fun a b => a.value ≤ b.value)
        (AngleCalculator.add_point pts x y value)) ∧
    (∀ l : List (ℝ × ℝ × ℝ),
      List.Sorted (fun a b => a.value ≤ b.value)
        (AngleCalculator.points_from_list l)) ∧
    (∀ pts : List CalibrationUtils.CalibrationPoint,
      List.Sorted (fun a b => a.value ≤ b.value)
        (CalibrationUtils.validate_points pts)) ∧
    (∀ (pts : List CalibrationUtils.CalibrationPoint) (value angle : ℚ),
      List.Sorted (fun a b => a.value ≤ b.value)
        (CalibrationUtils.add_point pts value angle)) ∧
    (∀ l : List (ℚ × ℚ),
      List.Sorted (fun a b => a.value ≤ b.value)
        (CalibrationUtils.set_points l)) :=
  ⟨AngleCalculator.add_point_sorted, AngleCalculator.points_from_list_sorted,
   CalibrationUtils.validate_points_sorted, CalibrationUtils.needle_add_point_sorted,
   CalibrationUtils.set_points_sorted⟩

theorem forall₂_append_cons_split {α β : Type} {R : α → β → Prop} :
    ∀ (A : List α) (b : α) (C : List α) (L : List β),
      List.Forall₂ R (A ++ b :: C) L →
      ∃ u1 a u2, L = u1 ++ a :: u2 ∧ u1.length = A.length ∧ R b a ∧
        List.Forall₂ R C u2 := by
  intro A
  induction A with
  | nil =>
    intro b C L h
    rw [List.nil_append] at h
    cases h with
    | cons hba htail =>
      exact ⟨[], _, _, rfl, rfl, hba, htail⟩
  | cons x A' ih =>
    intro b C L h
    rw [List.cons_append] at h
    cases h with
    | cons hxa htail =>
      obtain ⟨u1, a, u2, rfl, hlen, hba, hC⟩ := ih b C _ htail
      exact ⟨_ :: u1, a, u2, rfl, by simp [hlen], hba, hC⟩

namespace AngleCalculator

theorem find_bracket_skip_smaller (v : ℝ) :
    ∀ (Z : List (CalibrationPoint × ℝ)), Z ≠ [] →
      (∀ z ∈ Z, (z.1).value < v) →
      ∀ p : CalibrationPoint, p.value = v →
      ∀ (a : ℝ) (T : List (CalibrationPoint × ℝ)),
        find_bracket (Z ++ (p, a) :: T) v = some (pymod a 360) := by
  intro Z
  induction Z with
  | nil =>
    intro h
    exact absurd rfl h
  | cons z Z' ih =>
    intro _ hall p hp a T
    obtain ⟨q, b⟩ := z
    have hq : q.value < v := hall (q, b) (List.mem_cons_self _ _)
    subst hp
    cases Z' with
    | nil =>
      rw [List.cons_append, List.nil_append, find_bracket]
      rw [if_pos ⟨le_of_lt hq, le_rfl⟩]
      rw [if_neg (ne_of_gt hq)]
      have hne : p.value - q.value ≠ 0 := sub_ne_zero.mpr (ne_of_gt hq)
      congr 2
      rw [div_self hne]
      ring
    | cons z2 Z'' =>
      obtain ⟨q2, b2⟩ := z2
      have hq2 : q2.value < p.value :=
        hall (q2, b2) (List.mem_cons_of_mem _ (List.mem_cons_self _ _))
      rw [List.cons_append, List.cons_append, find_bracket]
      rw [if_neg (fun hc => absurd hc.2 (not_le.mpr hq2))]
      have hrec := ih (List.cons_ne_nil _ _)
        (fun z hz => hall z (List.mem_cons_of_mem _ hz)) p rfl a T
      rw [List.cons_append] at hrec
      exact hrec

end AngleCalculator

namespace AngleCalculator

theorem bearings_length (gauge_pivot_x gauge_pivot_y : ℝ)
    (pts : List CalibrationPoint) :
    (bearings gauge_pivot_x gauge_pivot_y pts).length = pts.length := by
  unfold bearings
  exact List.length_map _ _

theorem value_to_angle_exact (gauge_pivot_x gauge_pivot_y : ℝ)
    (l1 l2 : List CalibrationPoint) (p : CalibrationPoint)
    (h1 : ∀ q ∈ l1, q.value < p.value)
    (h2 : ∀ q ∈ l2, p.value < q.value) :
    value_to_angle gauge_pivot_x gauge_pivot_y (l1 ++ p :: l2) p.value
      = pymod (calculate_angle_to_point gauge_pivot_x gauge_pivot_y p.x p.y)
          360 := by
  cases l1 with
  | nil =>
    rw [List.nil_append]
    exact clamp_low gauge_pivot_x gauge_pivot_y p l2 p.value le_rfl
  | cons q l1' =>
    have hq : q.value < p.value := h1 q (List.mem_cons_self q l1')
    rw [List.cons_append]
    cases l2 with
    | nil =>
      have hlast : ((q :: (l1' ++ [p])).getLast
          (List.cons_ne_nil q (l1' ++ [p]))) = p := by
        rw [List.getLast_cons (by simp)]
        exact List.getLast_concat _
      have hge : ((q :: (l1' ++ [p])).getLast
          (List.cons_ne_nil q (l1' ++ [p]))).value ≤ p.value := by
        rw [hlast]
      rw [clamp_high gauge_pivot_x gauge_pivot_y q (l1' ++ [p]) p.value
        (not_le.mpr hq) hge, hlast]
    | cons r l2' =>
      have hlast2 : ((q :: (l1' ++ p :: r :: l2')).getLast
          (List.cons_ne_nil q (l1' ++ p :: r :: l2')))
          = ((r :: l2').getLast (List.cons_ne_nil r l2')) := by
        rw [List.getLast_cons (by simp)]
        rw [List.getLast_append_right (List.cons_ne_nil p (r :: l2'))]
        rw [List.getLast_cons (List.cons_ne_nil r l2')]
      have hne2 : ¬ ((q :: (l1' ++ p :: r :: l2')).getLast
          (List.cons_ne_nil q (l1' ++ p :: r :: l2'))).value ≤ p.value := by
        rw [hlast2]
        exact not_le.mpr (h2 _ (List.getLast_mem (List.cons_ne_nil r l2')))
      rw [value_to_angle_cons, if_neg (not_le.mpr hq), if_neg hne2]
      have hB : bearings gauge_pivot_x gauge_pivot_y
          (q :: (l1' ++ p :: r :: l2'))
          = bearings gauge_pivot_x gauge_pivot_y (q :: l1')
            ++ calculate_angle_to_point gauge_pivot_x gauge_pivot_y p.x p.y
              :: bearings gauge_pivot_x gauge_pivot_y (r :: l2') := by
        unfold bearings
        simp
      obtain ⟨u1, a, u2, hU, hulen, hRa, hF2⟩ :=
        forall₂_append_cons_split
          (bearings gauge_pivot_x gauge_pivot_y (q :: l1'))
          (calculate_angle_to_point gauge_pivot_x gauge_pivot_y p.x p.y)
          (bearings gauge_pivot_x gauge_pivot_y (r :: l2'))
          _ (hB ▸ unwrap_congr (bearings gauge_pivot_x gauge_pivot_y
            (q :: (l1' ++ p :: r :: l2'))))
      have hlen1 : (q :: l1').length = u1.length := by
        rw [hulen, bearings_length]
      have hzip : List.zip (q :: (l1' ++ p :: r :: l2'))
          (unwrap (bearings gauge_pivot_x gauge_pivot_y
            (q :: (l1' ++ p :: r :: l2'))))
          = List.zip (q :: l1') u1
            ++ (p, a) :: List.zip (r :: l2') u2 := by
        rw [hB, hU, ← List.cons_append, List.zip_append hlen1,
          List.zip_cons_cons]
      rw [hzip]
      have hZne : List.zip (q :: l1') u1 ≠ [] := by
        apply List.length_pos.mp
        rw [List.length_zip, ← hlen1]
        simp
      have hZlt : ∀ z ∈ List.zip (q :: l1') u1, (z.1).value < p.value := by
        intro z hz
        obtain ⟨z1, z2⟩ := z
        exact h1 z1 (List.of_mem_zip hz).1
      rw [find_bracket_skip_smaller p.value (List.zip (q :: l1') u1) hZne hZlt
        p rfl a (List.zip (r :: l2') u2)]
      obtain ⟨k, hk⟩ := hRa
      show pymod a 360 = _
      rw [hk, pymod_add_int_mul _ (by norm_num) k]

end AngleCalculator

/-- C3 (amended): for every calibration set with at least 2 points,
`value_to_angle` at the exact calibration value of a point `p` returns `p`'s
bearing (the angle from the gauge pivot to `p`'s pixel position) mod 360,
provided `p`'s value is not shared with any other calibration point (every
point before `p` has a strictly smaller value and every point after it a
strictly larger one).  When several points share the queried value the
function returns the bearing of only one of them, so the per-point guarantee
fails for duplicates. -/
theorem exact_calibration_value_resolves_to_bearing
    (gauge_pivot_x gauge_pivot_y : ℝ)
    (l1 l2 : List AngleCalculator.CalibrationPoint)
    (p : AngleCalculator.CalibrationPoint)
    (hlen : 2 ≤ (l1 ++ p :: l2).length)
    (h1 : ∀ q ∈ l1, q.value < p.value)
    (h2 : ∀ q ∈ l2, p.value < q.value) :
    AngleCalculator.value_to_angle gauge_pivot_x gauge_pivot_y
        (l1 ++ p :: l2) p.value
      = pymod (AngleCalculator.calculate_angle_to_point gauge_pivot_x
          gauge_pivot_y p.x p.y) 360 :=
  AngleCalculator.value_to_angle_exact gauge_pivot_x gauge_pivot_y l1 l2 p h1 h2

/-- Witness for C3: pivot (0,0) with points (1,0)↦0 and (0,1)↦1; querying the
exact value 1 returns the bearing of the second point mod 360. -/
theorem exact_calibration_value_resolves_to_bearing_witness :
    (2 ≤ ([(⟨1, 0, 0⟩ : AngleCalculator.CalibrationPoint)]
        ++ (⟨0, 1, 1⟩ : AngleCalculator.CalibrationPoint) :: []).length) ∧
    (∀ q ∈ [(⟨1, 0, 0⟩ : AngleCalculator.CalibrationPoint)],
      q.value < (AngleCalculator.CalibrationPoint.mk 0 1 1).value) ∧
    AngleCalculator.value_to_angle 0 0
        ([(⟨1, 0, 0⟩ : AngleCalculator.CalibrationPoint)]
          ++ (⟨0, 1, 1⟩ : AngleCalculator.CalibrationPoint) :: [])
        (AngleCalculator.CalibrationPoint.mk 0 1 1).value
      = pymod (AngleCalculator.calculate_angle_to_point 0 0
          (AngleCalculator.CalibrationPoint.mk 0 1 1).x
          (AngleCalculator.CalibrationPoint.mk 0 1 1).y) 360 :=
  ⟨by simp, by simp,
   exact_calibration_value_resolves_to_bearing 0 0 [⟨1, 0, 0⟩] [] ⟨0, 1, 1⟩
     (by simp) (by simp) (by simp)⟩

/-- C3 counterexample: two calibration points share the value 0 — pixel
(1,0) with bearing 0° and pixel (0,1) with bearing 90°.  At the exact
calibration value 0 the resolver returns 0°, which is not the second
point's bearing 90° (= 90 mod 360), so the claim's inclusion of duplicate
values is false. -/
theorem exact_calibration_value_duplicate_counterexample :
    AngleCalculator.value_to_angle 0 0 [⟨1, 0, 0⟩, ⟨0, 1, 0⟩] 0 = 0 ∧
    AngleCalculator.calculate_angle_to_point 0 0 0 1 = 90 ∧
    pymod (90 : ℝ) 360 = 90 ∧
    (0 : ℝ) ≠ 90 := by
  refine ⟨?_, AngleCalculator.calculate_angle_pos_y,
    pymod_eq_self (by norm_num) (by norm_num) (by norm_num), by norm_num⟩
  have h := AngleCalculator.clamp_low 0 0
    (⟨1, 0, 0⟩ : AngleCalculator.CalibrationPoint) [⟨0, 1, 0⟩] 0 (le_refl 0)
  rw [h]
  rw [show AngleCalculator.calculate_angle_to_point 0 0
      (AngleCalculator.CalibrationPoint.mk 1 0 0).x
      (AngleCalculator.CalibrationPoint.mk 1 0 0).y = 0 from
    AngleCalculator.calculate_angle_pos_x]
  exact pymod_eq_self (by norm_num) (by norm_num) (by norm_num)
